import Mathlib

/-!
Shallow embedding of the session admission, queueing and lifecycle core of
the SAM2 demo inference server (demo/backend/server/inference/predictor.py
and demo/backend/server/data/queue_manager.py), together with theorems
settling the frozen claims about it.

Session ids are modelled by an arbitrary type with decidable equality
(the source uses UUID-shaped strings; only equality is ever used).
Python dicts are modelled by insertion-ordered association lists, Python
sets by finite sets, and wall-clock timestamps by natural numbers.
-/

namespace SAM2Server

/-- Insertion-ordered association list lookup (Python dict read `m[k]` /
`m.get(k)`): returns the value at the first matching key. -/
def alookup {ι β : Type} [DecidableEq ι] : List (ι × β) → ι → Option β
  | [], _ => none
  | (k, v) :: rest, key => if k = key then some v else alookup rest key

/-- Python dict containment `k in m`. -/
def acontains {ι β : Type} [DecidableEq ι] (m : List (ι × β)) (k : ι) : Bool :=
  (alookup m k).isSome

/-- Python dict write `m[k] = v`: replace the value of an existing key in
place, else append (dicts preserve insertion order). -/
def aset {ι β : Type} [DecidableEq ι] : List (ι × β) → ι → β → List (ι × β)
  | [], k, v => [(k, v)]
  | (k0, v0) :: rest, k, v =>
      if k0 = k then (k, v) :: rest else (k0, v0) :: aset rest k v

/-- Python dict removal `m.pop(k, None)` (effect on the dict): drop the
first entry with the given key, if any. -/
def aremove {ι β : Type} [DecidableEq ι] : List (ι × β) → ι → List (ι × β)
  | [], _ => []
  | (k0, v0) :: rest, k =>
      if k0 = k then rest else (k0, v0) :: aremove rest k

theorem alookup_aset_self {ι β : Type} [DecidableEq ι]
    (m : List (ι × β)) (k : ι) (v : β) : alookup (aset m k v) k = some v := by
  induction m with
  | nil => simp [aset, alookup]
  | cons hd tl ih =>
      obtain ⟨k0, v0⟩ := hd
      by_cases h : k0 = k <;> simp [aset, alookup, h, ih]

theorem alookup_aset_ne {ι β : Type} [DecidableEq ι]
    (m : List (ι × β)) (k k2 : ι) (v : β) (hne : k2 ≠ k) :
    alookup (aset m k v) k2 = alookup m k2 := by
  have hne2 : ¬ k = k2 := fun h => hne h.symm
  induction m with
  | nil => simp [aset, alookup, hne2]
  | cons hd tl ih =>
      obtain ⟨k0, v0⟩ := hd
      by_cases h : k0 = k
      · subst h
        simp [aset, alookup, hne2]
      · simp [aset, alookup, h, ih]

theorem alookup_aremove_ne {ι β : Type} [DecidableEq ι]
    (m : List (ι × β)) (k k2 : ι) (hne : k2 ≠ k) :
    alookup (aremove m k) k2 = alookup m k2 := by
  have hne2 : ¬ k = k2 := fun h => hne h.symm
  induction m with
  | nil => simp [aremove]
  | cons hd tl ih =>
      obtain ⟨k0, v0⟩ := hd
      by_cases h : k0 = k
      · subst h
        simp [aremove, alookup, hne2]
      · simp [aremove, alookup, h, ih]

/-- Session status values used in `session_metadata` rows
(`queued`, `processing`, `completed`, `error`). -/
inductive SessionStatus where
  | queued
  | processing
  | completed
  | error
deriving DecidableEq, Repr

/-- Optional video metadata carried by a start request
(`width/height/fps/frame_count`). -/
structure VideoMetadata where
  width : Nat
  height : Nat
  fps : Nat
  frame_count : Nat
deriving DecidableEq, Repr

/-- The fields of `StartSessionRequest` the admission core reads:
`session_id`, `path`, optional `video_metadata`, and the
`keep_frames_on_gpu` policy flag (absent-or-falsy collapsed to `false`). -/
structure StartSessionRequest (ι : Type) where
  session_id : Option ι
  path : String
  video_metadata : Option VideoMetadata := none
  keep_frames_on_gpu : Bool := false
deriving DecidableEq, Repr

/-- A `session_metadata` row as built by `start_session`,
`_process_queue`, `_process_session` and `_restore_queue_state`. -/
structure SessionMeta where
  path : String
  enqueue_time : Nat
  status : SessionStatus
  video_metadata : Option VideoMetadata := none
  processing_start_time : Option Nat := none
  processing_time : Option Nat := none
  error_msg : Option String := none
deriving DecidableEq, Repr

/-- A `session_states` row (per-session model state bookkeeping); the
opaque inference state handle is abstracted away, its presence is what
matters to the lifecycle. -/
structure SessionState where
  canceled : Bool
  last_active_time : Nat
  offload_video_to_cpu : Bool
deriving DecidableEq, Repr

/-- One pending-queue element `(session_id, request_data, enqueue_time)`. -/
structure QueueEntry (ι : Type) where
  sid : ι
  request : StartSessionRequest ι
  enqueue_time : Nat
deriving DecidableEq, Repr

/-- JSON value found under the `video_metadata` key of a persisted
record: `none` models absent-or-falsy, `dict` a truthy JSON object,
`nondict` a truthy non-object value. -/
inductive VideoMetaJson where
  | dict (width height fps frame_count : Nat)
  | nondict
deriving DecidableEq, Repr

/-- Parsed `request_data` object of a persisted queue record:
`path` is `some` when the key is present. -/
structure RequestData where
  path : Option String
  video_metadata : Option VideoMetaJson := none
deriving DecidableEq, Repr

/-- One element of the persisted JSON array in `queue_data.json`:
`{session_id, request_data, enqueue_time}`. -/
structure DiskEntry (ι : Type) where
  session_id : ι
  request_data : RequestData
  enqueue_time : Nat
deriving DecidableEq, Repr

/-- Serialization of a start request performed by `QueueManager.save_queue`
(`to_dict`): the fields the restore path later reads back. -/
def serializeRequest {ι : Type} (r : StartSessionRequest ι) : RequestData :=
  { path := some r.path
    video_metadata := r.video_metadata.map
      (fun v => VideoMetaJson.dict v.width v.height v.fps v.frame_count) }

/-- `QueueManager.save_queue`: the serialized image of the in-memory
queue (one record per entry, in order). -/
def serializeQueue {ι : Type} (q : List (QueueEntry ι)) : List (DiskEntry ι) :=
  q.map fun e =>
    { session_id := e.sid
      request_data := serializeRequest e.request
      enqueue_time := e.enqueue_time }

/-- A capacity check recorded by the first lock section of
`start_session` and consumed by its second lock section:
`(session_id, request, enqueue_time, need_queue)`. -/
structure PendingCheck (ι : Type) where
  sid : ι
  request : StartSessionRequest ι
  enqueue_time : Nat
  need_queue : Bool
deriving DecidableEq, Repr

/-- The mutable fields of `InferenceAPI` the admission, queueing and
lifecycle core reads and writes, plus the persisted file image
(`queue_file`, `none` = file absent), the set of admitted sessions whose
`_process_session` initialisation has not yet finished (`pending_inits`),
and the capacity checks in flight between the two lock sections of
`start_session` (`pending_checks`, used by the fine-grained
interleaving model only). -/
structure InferenceState (ι : Type) where
  session_states : List (ι × SessionState) := []
  session_timeout : Nat := 300
  max_concurrent_sessions : Nat := 5
  session_queue : List (QueueEntry ι) := []
  active_sessions : Finset ι := ∅
  session_metadata : List (ι × SessionMeta) := []
  avg_processing_time : ℚ := 60
  device_is_cuda : Bool := false
  queue_file : Option (List (DiskEntry ι)) := none
  pending_inits : List (ι × StartSessionRequest ι) := []
  pending_checks : List (PendingCheck ι) := []

/-- The fresh-server initial state (empty `__init__` fields, no
pre-existing queue file). -/
def initState : InferenceState Nat := {}

/-- `StartSessionResponse{session_id, queued, queue_position,
estimated_wait_time}`. -/
structure StartSessionResponse (ι : Type) where
  session_id : ι
  queued : Bool
  queue_position : Nat
  estimated_wait_time : Int
deriving DecidableEq, Repr

/-- Python `int(...)` truncation applied to
`queue_position * avg_processing_time`; both factors are nonnegative
everywhere in this development, where truncation toward zero and floor
agree. -/
def pyInt (q : ℚ) : Int := q.floor

/-- `_persist_queue_state`: write the serialized queue over the file
image (see `save_queue_fsOps` for the file-operation granularity). -/
def _persist_queue_state {ι : Type} (st : InferenceState ι) : InferenceState ι :=
  { st with queue_file := some (serializeQueue st.session_queue) }

/-- First lock section of `start_session` (predictor.py lines 382-400):
returns an early response for an id whose metadata status is
`processing` or `completed`, else the computed `need_queue` flag. -/
def start_session_check {ι : Type} [DecidableEq ι] (st : InferenceState ι)
    (sid : ι) : Option (StartSessionResponse ι) ⊕ Bool :=
  match alookup st.session_metadata sid with
  | some m =>
      if m.status = SessionStatus.processing ∨ m.status = SessionStatus.completed then
        Sum.inl (some
          { session_id := sid
            queued := (m.status = SessionStatus.queued)
            queue_position := 0
            estimated_wait_time := 0 })
      else
        Sum.inr (decide (st.active_sessions.card ≥ st.max_concurrent_sessions))
  | none => Sum.inr (decide (st.active_sessions.card ≥ st.max_concurrent_sessions))

/-- Second lock section of `start_session`, overflow branch
(lines 405-433): create a `queued` metadata row, append to the queue
tail, persist, and answer with the post-append position and
`int(position * avg_processing_time)`. -/
def start_session_enqueue {ι : Type} [DecidableEq ι] (st : InferenceState ι)
    (sid : ι) (r : StartSessionRequest ι) (t : Nat) :
    InferenceState ι × StartSessionResponse ι :=
  let md := aset st.session_metadata sid
    { path := r.path
      enqueue_time := t
      status := SessionStatus.queued
      video_metadata := r.video_metadata }
  let q := st.session_queue ++ [⟨sid, r, t⟩]
  let pos : Nat := q.length
  let wait := pyInt ((pos : ℚ) * st.avg_processing_time)
  let st := _persist_queue_state
    { st with session_metadata := md, session_queue := q }
  (st, { session_id := sid, queued := true, queue_position := pos
         estimated_wait_time := wait })

/-- Second lock section of `start_session`, direct-admission branch
(lines 437-461): create a `processing` metadata row, add the id to the
active set, and hand the request to the asynchronous initialiser. -/
def start_session_activate {ι : Type} [DecidableEq ι] (st : InferenceState ι)
    (sid : ι) (r : StartSessionRequest ι) (t : Nat) :
    InferenceState ι × StartSessionResponse ι :=
  let md := aset st.session_metadata sid
    { path := r.path
      enqueue_time := t
      status := SessionStatus.processing
      video_metadata := r.video_metadata
      processing_start_time := some t }
  let st := { st with
    session_metadata := md
    active_sessions := insert sid st.active_sessions
    pending_inits := st.pending_inits ++ [(sid, r)] }
  (st, { session_id := sid, queued := false, queue_position := 0
         estimated_wait_time := 0 })

/-- `InferenceAPI.start_session` run to completion with no interleaved
operation between its two lock sections; the session id has already
been resolved (client-provided or freshly minted uuid) and `t` is the
`time.time()` value read at entry. -/
def start_session {ι : Type} [DecidableEq ι] (st : InferenceState ι)
    (sid : ι) (r : StartSessionRequest ι) (t : Nat) :
    InferenceState ι × StartSessionResponse ι :=
  match start_session_check st sid with
  | Sum.inl (some resp) => (st, resp)
  | Sum.inl none => (st, { session_id := sid, queued := false
                           queue_position := 0, estimated_wait_time := 0 })
  | Sum.inr true => start_session_enqueue st sid r t
  | Sum.inr false => start_session_activate st sid r t

/-- Promotion of a popped queue entry by `_process_queue`
(lines 302-313): add to the active set, stamp the metadata row
`processing` with the current time, persist the remaining queue, and
launch `_process_session` asynchronously. -/
def promoteEntry {ι : Type} [DecidableEq ι] (st : InferenceState ι)
    (e : QueueEntry ι) (rest : List (QueueEntry ι)) (now : Nat) :
    InferenceState ι :=
  let md := match alookup st.session_metadata e.sid with
    | some m => aset st.session_metadata e.sid
        { m with status := SessionStatus.processing
                 processing_start_time := some now }
    | none => st.session_metadata
  _persist_queue_state
    { st with
      session_queue := rest
      active_sessions := insert e.sid st.active_sessions
      session_metadata := md
      pending_inits := st.pending_inits ++ [(e.sid, e.request)] }

/-- The recursion of `_process_queue` over the pending queue: the
capacity guard is re-checked on entry of every invocation; a popped id
that is already active or has no metadata row is dropped and processing
continues on a fresh thread (modelled by the recursive call); a good
head is promoted and the invocation ends. -/
def processQueueAux {ι : Type} [DecidableEq ι] (now : Nat) :
    List (QueueEntry ι) → InferenceState ι → InferenceState ι
  | [], st => { st with session_queue := [] }
  | e :: rest, st =>
      if st.active_sessions.card ≥ st.max_concurrent_sessions then
        { st with session_queue := e :: rest }
      else if e.sid ∈ st.active_sessions ∨ ¬ acontains st.session_metadata e.sid then
        processQueueAux now rest st
      else
        promoteEntry st e rest now

/-- `InferenceAPI._process_queue` (lines 284-315), including the
continuation threads its defensive skip path spawns. -/
def _process_queue {ι : Type} [DecidableEq ι] (st : InferenceState ι)
    (now : Nat) : InferenceState ι :=
  processQueueAux now st.session_queue st

/-- The queue-removal loop shared by `close_session` (lines 474-479) and
`_check_and_cleanup_sessions` (lines 240-245): pop the first entry with
the given id; the boolean reports whether anything was removed. -/
def removeFirstBySid {ι : Type} [DecidableEq ι] (sid : ι) :
    List (QueueEntry ι) → List (QueueEntry ι) × Bool
  | [] => ([], false)
  | e :: rest =>
      if e.sid = sid then (rest, true)
      else
        let r := removeFirstBySid sid rest
        (e :: r.1, r.2)

/-- `InferenceAPI.__clear_session_state` (lines 931-968): pop the
session state; when absent, mark the metadata row `completed` and
report failure; when present, release it and report success. -/
def clear_session_state {ι : Type} [DecidableEq ι] (st : InferenceState ι)
    (sid : ι) : InferenceState ι × Bool :=
  match alookup st.session_states sid with
  | none =>
      let md := match alookup st.session_metadata sid with
        | some m => aset st.session_metadata sid
            { m with status := SessionStatus.completed }
        | none => st.session_metadata
      ({ st with session_metadata := md }, false)
  | some _ =>
      ({ st with session_states := aremove st.session_states sid }, true)

/-- `InferenceAPI.close_session` (lines 463-509): remove the id from the
queue (first match) and the active set, mark its metadata `completed`,
persist when the queue changed, then clear the session state; the
asynchronous `_process_queue` it spawns is a separate step of the
operation machine. -/
def close_session {ι : Type} [DecidableEq ι] (st : InferenceState ι)
    (sid : ι) : InferenceState ι × Bool :=
  let qr := removeFirstBySid sid st.session_queue
  let md := match alookup st.session_metadata sid with
    | some m => aset st.session_metadata sid
        { m with status := SessionStatus.completed }
    | none => st.session_metadata
  let st1 : InferenceState ι :=
    { st with
      session_queue := qr.1
      active_sessions := st.active_sessions.erase sid
      session_metadata := md }
  let st2 := if qr.2 then _persist_queue_state st1 else st1
  clear_session_state st2 sid

/-- The `except` branch of `_process_session` (lines 352-361): drop the
id from the active set and mark the metadata row `error`. -/
def process_session_fail {ι : Type} [DecidableEq ι] (st : InferenceState ι)
    (sid : ι) : InferenceState ι :=
  let md := match alookup st.session_metadata sid with
    | some m => aset st.session_metadata sid
        { m with status := SessionStatus.error, error_msg := some "init failed" }
    | none => st.session_metadata
  { st with
    active_sessions := st.active_sessions.erase sid
    session_metadata := md }

/-- Successful completion of the `_process_session` thread for an
admitted session (lines 323-350): store the session state, record the
processing time, fold it into the smoothed average, then re-pump the
queue (the `finally` of `_process_session`). A missing metadata row or
missing `processing_start_time` key raises inside the `try` and lands
in the error path after the state write. -/
def process_session_ok {ι : Type} [DecidableEq ι] (st : InferenceState ι)
    (sid : ι) (r : StartSessionRequest ι) (t_done : Nat) : InferenceState ι :=
  let offload := if r.keep_frames_on_gpu then ! st.device_is_cuda else true
  let newSessionState : SessionState :=
    { canceled := false, last_active_time := t_done
      offload_video_to_cpu := offload }
  let st := { st with
    session_states := aset st.session_states sid newSessionState }
  match alookup st.session_metadata sid with
  | some m =>
      match m.processing_start_time with
      | some pst =>
          let observed : Nat := t_done - pst
          let st := { st with
            session_metadata := aset st.session_metadata sid
              { m with processing_time := some observed }
            avg_processing_time :=
              (7 / 10 : ℚ) * st.avg_processing_time + (3 / 10 : ℚ) * observed }
          _process_queue st t_done
      | none =>
          _process_queue (process_session_fail st sid) t_done
  | none => _process_queue (process_session_fail st sid) t_done

/-- `_process_session` when `predictor.init_state` raises (lines
352-364): no session state is stored; the error path runs, then the
queue is re-pumped. -/
def process_session_err {ι : Type} [DecidableEq ι] (st : InferenceState ι)
    (sid : ι) (now : Nat) : InferenceState ι :=
  _process_queue (process_session_fail st sid) now

/-- One iteration of the reaper cleanup loop
(`_check_and_cleanup_sessions`, lines 234-256): remove the expired id
from the queue (first match) and from the active set, then clear its
session state; the boolean accumulates `queue_updated`, which the
source sets both when a queue entry and when an active id was
removed. -/
def reapOne {ι : Type} [DecidableEq ι]
    (acc : InferenceState ι × Bool) (sid : ι) : InferenceState ι × Bool :=
  let st := acc.1
  let qr := removeFirstBySid sid st.session_queue
  let activeRemoved := sid ∈ st.active_sessions
  let st1 : InferenceState ι :=
    { st with
      session_queue := qr.1
      active_sessions := st.active_sessions.erase sid }
  ((clear_session_state st1 sid).1, acc.2 || qr.2 || decide activeRemoved)

/-- `InferenceAPI._check_and_cleanup_sessions` at time `now`
(lines 206-282): collect the ids in `session_states` whose inactivity
exceeds `session_timeout`, reap each of them, and when anything changed
persist the queue and pump it. -/
def _check_and_cleanup_sessions {ι : Type} [DecidableEq ι]
    (st : InferenceState ι) (now : Nat) : InferenceState ι :=
  let expired := (st.session_states.filter
    (fun p => decide (now - p.2.last_active_time > st.session_timeout))).map Prod.fst
  if expired = [] then st
  else
    let r := expired.foldl reapOne (st, false)
    if r.2 then _process_queue (_persist_queue_state r.1) now else r.1

/-- The three conditions `queue_data.json` can be found in at load time:
absent, unreadable (any exception while opening or parsing), or a
parsed JSON array of records. -/
inductive QueueFileState (ι : Type) where
  | absent
  | corrupt
  | data (entries : List (DiskEntry ι))
deriving DecidableEq, Repr

/-- `QueueManager.load_queue` (queue_manager.py lines 79-108): the
ordered records, or the empty list when the file is absent or any
exception occurs. -/
def load_queue {ι : Type} : QueueFileState ι → List (DiskEntry ι)
  | QueueFileState.absent => []
  | QueueFileState.corrupt => []
  | QueueFileState.data entries => entries

/-- The restored request object built at predictor.py lines 162-166:
`StartSessionRequest(type, session_id, path)`; `video_metadata` is only
ever assigned inside the branch that raises, so it stays `none`. -/
def mkRestoredRequest {ι : Type} (sid : ι) (p : String) : StartSessionRequest ι :=
  { session_id := some sid, path := p }

/-- The record loop of `_restore_queue_state` (lines 157-193), threading
the metadata dict and the accumulated restored queue. A record whose
`request_data` is not a dict with a `path` key is skipped with a
warning. A record whose `request_data` carries a truthy dict under
`video_metadata` reaches the expression `VideoMetadata(...)` at line
172; the name `VideoMetadata` is not imported by predictor.py, so this
raises `NameError`, which the `except` at line 201 catches: the loop
result is discarded (`none`), but the metadata writes already made
remain. -/
def restoreRecords {ι : Type} [DecidableEq ι] :
    List (DiskEntry ι) → List (ι × SessionMeta) → List (QueueEntry ι) →
    List (ι × SessionMeta) × Option (List (QueueEntry ι))
  | [], md, acc => (md, some acc)
  | e :: rest, md, acc =>
      match e.request_data.path with
      | none => restoreRecords rest md acc
      | some p =>
          match e.request_data.video_metadata with
          | some (VideoMetaJson.dict _ _ _ _) => (md, none)
          | _ =>
              let md2 :=
                if acontains md e.session_id then md
                else aset md e.session_id
                  { path := p
                    enqueue_time := e.enqueue_time
                    status := SessionStatus.queued
                    video_metadata := none }
              restoreRecords rest md2
                (acc ++ [⟨e.session_id, mkRestoredRequest e.session_id p, e.enqueue_time⟩])

/-- `InferenceAPI._restore_queue_state` (lines 144-204) applied to a
queue file in the given condition: on an empty load, return; otherwise
run the record loop; when it completes, install the restored queue and
metadata; when it raises, keep the metadata written so far and leave
`session_queue` untouched (the assignment at line 195 is skipped). -/
def _restore_queue_state {ι : Type} [DecidableEq ι]
    (st : InferenceState ι) (file : QueueFileState ι) : InferenceState ι :=
  let loaded := load_queue file
  if loaded.isEmpty then st
  else
    match restoreRecords loaded st.session_metadata [] with
    | (md, some q) => { st with session_metadata := md, session_queue := q }
    | (md, none) => { st with session_metadata := md }

/-- The operations of the lifecycle machine. `submit` runs the whole of
`start_session` with no interleaving between its two lock sections;
`pump` is one `_process_queue` invocation (the asynchronous pumps
spawned by `close_session` and `_process_session` appear as separate
`pump`, `initOk` and `initErr` steps placed by the scheduler);
timestamps are carried by the operations. -/
inductive Op (ι : Type) where
  | submit (sid : ι) (r : StartSessionRequest ι) (t : Nat)
  | pump (now : Nat)
  | close (sid : ι)
  | reaper (now : Nat)
  | initOk (sid : ι) (t : Nat)
  | initErr (sid : ι) (now : Nat)
deriving DecidableEq, Repr

/-- Drop the first pending initialisation for the given id, returning
its request when one was pending. -/
def takePendingInit {ι : Type} [DecidableEq ι] (sid : ι) :
    List (ι × StartSessionRequest ι) →
    Option (StartSessionRequest ι) × List (ι × StartSessionRequest ι)
  | [] => (none, [])
  | p :: rest =>
      if p.1 = sid then (some p.2, rest)
      else
        let r := takePendingInit sid rest
        (r.1, p :: r.2)

/-- One atomic step of the lifecycle machine. `initOk`/`initErr` fire
only for sessions whose initialisation is actually pending. -/
def step {ι : Type} [DecidableEq ι] (st : InferenceState ι) :
    Op ι → InferenceState ι
  | Op.submit sid r t => (start_session st sid r t).1
  | Op.pump now => _process_queue st now
  | Op.close sid => (close_session st sid).1
  | Op.reaper now => _check_and_cleanup_sessions st now
  | Op.initOk sid t =>
      match takePendingInit sid st.pending_inits with
      | (some r, rest) =>
          process_session_ok { st with pending_inits := rest } sid r t
      | (none, _) => st
  | Op.initErr sid now =>
      match takePendingInit sid st.pending_inits with
      | (some _, rest) =>
          process_session_err { st with pending_inits := rest } sid now
      | (none, _) => st

/-- Run a sequence of operations from a state. -/
def run {ι : Type} [DecidableEq ι] (st : InferenceState ι)
    (ops : List (Op ι)) : InferenceState ι :=
  ops.foldl step st

/-- The operations of the fine-grained machine, which splits `submit`
at the lock boundary inside `start_session`: `subCheck` is the first
lock section (lines 382-400) and `subFinish` the second (lines 405-433
or 437-452); every other operation is unchanged. -/
inductive FOp (ι : Type) where
  | subCheck (sid : ι) (r : StartSessionRequest ι) (t : Nat)
  | subFinish (sid : ι)
  | pump (now : Nat)
  | close (sid : ι)
  | reaper (now : Nat)
  | initOk (sid : ι) (t : Nat)
  | initErr (sid : ι) (now : Nat)
deriving DecidableEq, Repr

/-- Drop the first pending capacity check for the given id. -/
def takePendingCheck {ι : Type} [DecidableEq ι] (sid : ι) :
    List (PendingCheck ι) → Option (PendingCheck ι) × List (PendingCheck ι)
  | [] => (none, [])
  | c :: rest =>
      if c.sid = sid then (some c, rest)
      else
        let r := takePendingCheck sid rest
        (r.1, c :: r.2)

/-- One step of the fine-grained machine. A `subCheck` that does not
return early records its `need_queue` decision; the matching
`subFinish` later applies the enqueue or admission section using the
recorded decision, exactly as the handler thread would after regaining
the lock. -/
def fineStep {ι : Type} [DecidableEq ι] (st : InferenceState ι) :
    FOp ι → InferenceState ι
  | FOp.subCheck sid r t =>
      match start_session_check st sid with
      | Sum.inl _ => st
      | Sum.inr b =>
          { st with pending_checks := st.pending_checks ++ [⟨sid, r, t, b⟩] }
  | FOp.subFinish sid =>
      match takePendingCheck sid st.pending_checks with
      | (some c, rest) =>
          let st := { st with pending_checks := rest }
          if c.need_queue then (start_session_enqueue st c.sid c.request c.enqueue_time).1
          else (start_session_activate st c.sid c.request c.enqueue_time).1
      | (none, _) => st
  | FOp.pump now => _process_queue st now
  | FOp.close sid => (close_session st sid).1
  | FOp.reaper now => _check_and_cleanup_sessions st now
  | FOp.initOk sid t =>
      match takePendingInit sid st.pending_inits with
      | (some r, rest) =>
          process_session_ok { st with pending_inits := rest } sid r t
      | (none, _) => st
  | FOp.initErr sid now =>
      match takePendingInit sid st.pending_inits with
      | (some _, rest) =>
          process_session_err { st with pending_inits := rest } sid now
      | (none, _) => st

/-- Run a sequence of fine-grained operations. -/
def runFine {ι : Type} [DecidableEq ι] (st : InferenceState ι)
    (fops : List (FOp ι)) : InferenceState ι :=
  fops.foldl fineStep st

/-- The session ids currently in the pending queue, in order. -/
def queueSids {ι : Type} (st : InferenceState ι) : List ι :=
  st.session_queue.map QueueEntry.sid

/-- The legality side condition of the amended claim C1: a trace is
legal when no `submit` targets a session id that is in the pending
queue at the moment the submit runs; every other operation is always
legal. -/
def legalOps {ι : Type} [DecidableEq ι] :
    InferenceState ι → List (Op ι) → Bool
  | _, [] => true
  | st, op :: ops =>
      (match op with
        | Op.submit sid _ _ => ! decide (sid ∈ queueSids st)
        | _ => true) &&
      legalOps (step st op) ops

/-- One `(frame_idx, obj_ids, video_res_masks)` tuple produced by the
backend propagation iterator; the mask payload is opaque to the
lifecycle core (encoding via pycocotools is external). -/
structure PropOutput where
  frame_index : Nat
  payload : Nat
deriving DecidableEq, Repr

/-- The observable outcome of one `propagate_in_video` generator run:
the outputs that were yielded (in order), whether the run ended on the
cancellation branch, how many accelerator cache flushes were requested,
and the error surfaced to the consumer, if any. -/
structure PropResult where
  yields : List PropOutput
  canceled_exit : Bool
  cache_flushes : Nat
  error : Option String
deriving DecidableEq, Repr

/-- The hardcoded `propagation_direction = "both"` of
`propagate_in_video` (line 678). -/
def propagation_direction : String := "both"

/-- One directional loop of `propagate_in_video` (lines 711-748 forward,
751-788 backward). `flag i` is the value the i-th read of
`session["canceled"]` observes (reads are numbered across both loops);
the read happens first in each iteration, after the backend step that
produced the element and before the yield. Arguments after the output
list: next read index, `processed_frames` so far, cache flushes so far.
Returns the yielded outputs and the updated counters, plus whether the
loop exited on the cancellation branch (which flushes the cache on a
cuda device and returns). -/
def propagatePhase (cuda : Bool) (flag : Nat → Bool) :
    List PropOutput → Nat → Nat → Nat →
    List PropOutput × Nat × Nat × Nat × Bool
  | [], i, pf, fl => ([], i, pf, fl, false)
  | o :: rest, i, pf, fl =>
      if flag i then
        ([], i + 1, pf, fl + (if cuda then 1 else 0), true)
      else
        let pf2 := pf + 1
        let fl2 := fl + (if pf2 % 10 = 0 ∧ cuda then 1 else 0)
        let r := propagatePhase cuda flag rest (i + 1) pf2 fl2
        (o :: r.1, r.2.1, r.2.2.1, r.2.2.2.1, r.2.2.2.2)

/-- `InferenceAPI.propagate_in_video` (lines 673-800) for a session
whose state exists. Line 698 unconditionally resets the session
`canceled` flag to `False` before the first backend step, so the values
the in-loop reads observe are exactly the cancellations issued after
the stream began (`cancelRead`). The direction is the constant
`"both"`: forward loop first, then, unless the forward loop was
canceled, the backward loop; the `finally` block flushes the cache on a
cuda device on every exit path. The `ValueError` branch for an invalid
direction (lines 701-704) is retained but unreachable. -/
def propagate_in_video (cuda : Bool) (session : SessionState)
    (cancelRead : Nat → Bool) (fwd bwd : List PropOutput) : PropResult :=
  let session := { session with canceled := false }
  let flag : Nat → Bool := fun i => session.canceled || cancelRead i
  let finalFlush : Nat := if cuda then 1 else 0
  if propagation_direction = "both" ∨ propagation_direction = "forward" ∨
      propagation_direction = "backward" then
    let rf := propagatePhase cuda flag fwd 0 0 0
    if rf.2.2.2.2 then
      { yields := rf.1, canceled_exit := true
        cache_flushes := rf.2.2.2.1 + finalFlush, error := none }
    else
      let rb := propagatePhase cuda flag bwd rf.2.1 rf.2.2.1 rf.2.2.2.1
      { yields := rf.1 ++ rb.1, canceled_exit := rb.2.2.2.2
        cache_flushes := rb.2.2.2.1 + finalFlush, error := none }
  else
    { yields := [], canceled_exit := false, cache_flushes := finalFlush
      error := some "invalid propagation direction" }

/-- `InferenceAPI.cancel_propagate_in_video` (lines 802-807): set the
session `canceled` flag; the response reports success. -/
def cancel_propagate_in_video (session : SessionState) : SessionState × Bool :=
  ({ session with canceled := true }, true)

/-- Abstract content of a file during a save: `empty` is the truncated
file produced by Python `open(path, "w")` before `json.dump` has run;
`image` is a complete serialized queue. -/
inductive FileContent where
  | empty
  | image (entries : List (DiskEntry Nat))
deriving DecidableEq, Repr

/-- File-system operations at the granularity relevant to save
atomicity. -/
inductive FsOp where
  | openTruncate (file : String)
  | writeDump (file : String) (entries : List (DiskEntry Nat))
  | rename (src dst : String)
deriving DecidableEq, Repr

/-- Effect of one file operation on the directory (name to content). -/
def applyFsOp (fs : String → Option FileContent) : FsOp → String → Option FileContent
  | FsOp.openTruncate f => fun g => if g = f then some FileContent.empty else fs g
  | FsOp.writeDump f es => fun g => if g = f then some (FileContent.image es) else fs g
  | FsOp.rename s d => fun g => if g = d then fs s else if g = s then none else fs g

/-- The single queue file used by `QueueManager`
(`data/queue/queue_data.json`). -/
def queue_data_file : String := "queue_data.json"

/-- The file operations `QueueManager.save_queue` performs
(queue_manager.py lines 69-71): `open(self.queue_file, "w")` truncates
the target file in place, then `json.dump` writes the new image into
it. There is no temporary file and no rename. -/
def save_queue_fsOps (entries : List (DiskEntry Nat)) : List FsOp :=
  [FsOp.openTruncate queue_data_file, FsOp.writeDump queue_data_file entries]

/-- Modelled from the spec: the save contract of section 4.1 requires
writing the new image to a temporary file and renaming it over the
target, so a reader never observes a truncated file. This procedure is
not implemented anywhere in the source. -/
def atomic_save_fsOps (entries : List (DiskEntry Nat)) : List FsOp :=
  [FsOp.openTruncate "queue_data.json.tmp",
   FsOp.writeDump "queue_data.json.tmp" entries,
   FsOp.rename "queue_data.json.tmp" queue_data_file]

/-- The contents of the queue file a concurrent reader can observe
while a list of file operations runs, starting from a directory whose
queue file holds `pre`: one observation per prefix of the operation
list. -/
def contentsDuring (pre : FileContent) (ops : List FsOp) : List (Option FileContent) :=
  (ops.scanl applyFsOp
    (fun g => if g = queue_data_file then some pre else none)).map
    (fun fs => fs queue_data_file)

/-- The metadata status recorded for a session id, if any. -/
def statusOf {ι : Type} [DecidableEq ι] (st : InferenceState ι) (sid : ι) :
    Option SessionStatus :=
  (alookup st.session_metadata sid).map SessionMeta.status

/-- The defensive skip condition of `_process_queue` (line 295): the
popped id is already active or its metadata row has vanished. -/
def isBadHead {ι : Type} [DecidableEq ι] (st : InferenceState ι)
    (e : QueueEntry ι) : Bool :=
  decide (e.sid ∈ st.active_sessions) || ! acontains st.session_metadata e.sid

/-- The behaviour of one `_process_queue` invocation as stated by the
amended claim C6: when capacity remains, drop the defective prefix of
the queue and admit exactly the first non-defective entry (or empty the
queue, unpersisted, when every entry is defective); at capacity the
state is untouched. -/
def processQueueSpec {ι : Type} [DecidableEq ι] (st : InferenceState ι)
    (now : Nat) : InferenceState ι :=
  if st.active_sessions.card ≥ st.max_concurrent_sessions ∧ st.session_queue ≠ [] then st
  else
    match st.session_queue.dropWhile (isBadHead st) with
    | [] => { st with session_queue := [] }
    | g :: tl => promoteEntry st g tl now

/-- Invariant I2 together with the auxiliary facts its preservation
needs, over the three components an operation can change: the queue
sids are distinct, no queued id is active, and every active id has a
metadata row with status `processing`. -/
def InvParts {ι : Type} [DecidableEq ι] (q : List (QueueEntry ι))
    (act : Finset ι) (md : List (ι × SessionMeta)) : Prop :=
  (q.map QueueEntry.sid).Nodup ∧
  (∀ e ∈ q, e.sid ∉ act) ∧
  (∀ sid ∈ act, (alookup md sid).map SessionMeta.status =
    some SessionStatus.processing)

/-- The strengthened invariant behind claims C1 and I2. -/
def Inv {ι : Type} [DecidableEq ι] (st : InferenceState ι) : Prop :=
  InvParts st.session_queue st.active_sessions st.session_metadata

/-- Invariant I1: the active set never exceeds the concurrency cap. -/
def CapInv {ι : Type} [DecidableEq ι] (st : InferenceState ι) : Prop :=
  st.active_sessions.card ≤ st.max_concurrent_sessions

/-- A concrete start request used by witnesses and counterexamples. -/
def rqW (n : Nat) : StartSessionRequest Nat :=
  { session_id := some n, path := "v.mp4" }

/-- Five submits that fill the default capacity of 5, then two submits
of the same fresh id 6: the second one re-enqueues the already queued
id (counterexample input for claim C1). -/
def opsC1 : List (Op Nat) :=
  [Op.submit 1 (rqW 1) 0, Op.submit 2 (rqW 2) 0, Op.submit 3 (rqW 3) 0,
   Op.submit 4 (rqW 4) 0, Op.submit 5 (rqW 5) 0, Op.submit 6 (rqW 6) 1,
   Op.submit 6 (rqW 6) 2]

/-- A legal trace for the witness of the amended claim C1: fill
capacity, overflow two distinct ids into the queue, close an active
session, pump, and let an initialisation finish. -/
def opsC1W : List (Op Nat) :=
  [Op.submit 1 (rqW 1) 0, Op.submit 2 (rqW 2) 0, Op.submit 3 (rqW 3) 0,
   Op.submit 4 (rqW 4) 0, Op.submit 5 (rqW 5) 0, Op.submit 6 (rqW 6) 1,
   Op.submit 7 (rqW 7) 1, Op.close 2, Op.pump 2, Op.initOk 1 3,
   Op.reaper 4]

/-- Four interleaving-free submits that fill the active set to 4, then
two capacity checks that both observe 4 < 5 before either admission
runs (counterexample input for claim C2). -/
def fopsC2 : List (FOp Nat) :=
  [FOp.subCheck 1 (rqW 1) 0, FOp.subFinish 1,
   FOp.subCheck 2 (rqW 2) 0, FOp.subFinish 2,
   FOp.subCheck 3 (rqW 3) 0, FOp.subFinish 3,
   FOp.subCheck 4 (rqW 4) 0, FOp.subFinish 4,
   FOp.subCheck 5 (rqW 5) 1, FOp.subCheck 6 (rqW 6) 1,
   FOp.subFinish 5, FOp.subFinish 6]

/-- A metadata row for a queued session, used by concrete states. -/
def queuedMeta (p : String) (t : Nat) : SessionMeta :=
  { path := p, enqueue_time := t, status := SessionStatus.queued }

/-- A state with two well-formed queued sessions, an empty active set
and spare capacity (counterexample input for claim C6). -/
def stC6 : InferenceState Nat :=
  { session_queue := [⟨1, rqW 1, 0⟩, ⟨2, rqW 2, 0⟩]
    session_metadata := [(1, queuedMeta "v.mp4" 0), (2, queuedMeta "v.mp4" 0)] }

/-- The state after five direct admissions from a fresh server: at
capacity with an empty queue (witness input for claim C3). -/
def stC3 : InferenceState Nat :=
  (run initState
    [Op.submit 1 (rqW 1) 0, Op.submit 2 (rqW 2) 0, Op.submit 3 (rqW 3) 0,
     Op.submit 4 (rqW 4) 0, Op.submit 5 (rqW 5) 0])

/-- The state after the first overflow submit on `stC3`. -/
def stC3b : InferenceState Nat := (start_session stC3 6 (rqW 6) 1).1

/-- A state holding one queued, one active-initialised and one
already-released session (witness input for claims C8 and C9). -/
def stC8 : InferenceState Nat :=
  { session_queue := [⟨1, rqW 1, 0⟩, ⟨2, rqW 2, 0⟩, ⟨3, rqW 3, 0⟩]
    active_sessions := {4}
    session_metadata :=
      [(1, queuedMeta "v.mp4" 0), (2, queuedMeta "v.mp4" 0),
       (3, queuedMeta "v.mp4" 0),
       (4, { path := "v.mp4", enqueue_time := 0
             status := SessionStatus.processing })]
    session_states :=
      [(4, { canceled := false, last_active_time := 0
             offload_video_to_cpu := true })] }

/-- A parseable persisted record without video metadata. -/
def diskE1 : DiskEntry Nat :=
  { session_id := 1, request_data := { path := some "a.mp4" }, enqueue_time := 0 }

/-- A persisted record carrying a truthy `video_metadata` object, as
`save_queue` itself produces for a queued request that declared video
metadata. -/
def diskE2 : DiskEntry Nat :=
  { session_id := 2
    request_data :=
      { path := some "b.mp4"
        video_metadata := some (VideoMetaJson.dict 640 480 30 100) }
    enqueue_time := 1 }

/-- Concrete forward and backward backend output lists for the
propagation witnesses. -/
def outsW (n : Nat) : List PropOutput := (List.range n).map fun i => ⟨i, i⟩

/-- A session state for the propagation witnesses. -/
def sessW : SessionState :=
  { canceled := false, last_active_time := 0, offload_video_to_cpu := true }

theorem aremove_of_alookup_none {ι β : Type} [DecidableEq ι]
    (m : List (ι × β)) (k : ι) (h : alookup m k = none) : aremove m k = m := by
  induction m with
  | nil => simp [aremove]
  | cons hd tl ih =>
      obtain ⟨k0, v0⟩ := hd
      by_cases hk : k0 = k
      · simp [alookup, hk] at h
      · simp [alookup, hk] at h
        simp [aremove, hk, ih h]

theorem removeFirstBySid_sublist {ι : Type} [DecidableEq ι]
    (sid : ι) (q : List (QueueEntry ι)) :
    (removeFirstBySid sid q).1.Sublist q := by
  induction q with
  | nil => simp [removeFirstBySid]
  | cons e rest ih =>
      by_cases h : e.sid = sid
      · simp [removeFirstBySid, h]
      · simpa [removeFirstBySid, h] using ih.cons₂ e

theorem removeFirstBySid_flag {ι : Type} [DecidableEq ι]
    (sid : ι) (q : List (QueueEntry ι)) :
    (removeFirstBySid sid q).2 = true ↔ sid ∈ q.map QueueEntry.sid := by
  induction q with
  | nil => simp [removeFirstBySid]
  | cons e rest ih =>
      by_cases h : e.sid = sid
      · simp [removeFirstBySid, h]
      · simp only [removeFirstBySid, h, if_false, List.map_cons, List.mem_cons]
        rw [ih]
        constructor
        · exact Or.inr
        · rintro (hl | hr)
          · exact absurd hl.symm h
          · exact hr

theorem removeFirstBySid_eq_filter {ι : Type} [DecidableEq ι]
    (sid : ι) (q : List (QueueEntry ι))
    (hnd : (q.map QueueEntry.sid).Nodup) :
    (removeFirstBySid sid q).1 = q.filter (fun e => ! decide (e.sid = sid)) := by
  induction q with
  | nil => simp [removeFirstBySid]
  | cons e rest ih =>
      simp only [List.map_cons, List.nodup_cons] at hnd
      by_cases h : e.sid = sid
      · subst h
        have : rest.filter (fun e2 => ! decide (e2.sid = e.sid)) = rest := by
          apply List.filter_eq_self.mpr
          intro x hx
          simp only [Bool.not_eq_true', decide_eq_false_iff_not]
          exact fun hxe => hnd.1 (hxe ▸ List.mem_map_of_mem QueueEntry.sid hx)
        simp [removeFirstBySid, this]
      · simp [removeFirstBySid, h, ih hnd.2]

theorem removeFirstBySid_map_sid {ι : Type} [DecidableEq ι]
    (sid : ι) (q : List (QueueEntry ι)) :
    ((removeFirstBySid sid q).1.map QueueEntry.sid).Sublist
      (q.map QueueEntry.sid) :=
  (removeFirstBySid_sublist sid q).map QueueEntry.sid

theorem close_session_components {ι : Type} [DecidableEq ι]
    (st : InferenceState ι) (sid : ι) :
    (close_session st sid).2 = acontains st.session_states sid ∧
    (close_session st sid).1.session_states = aremove st.session_states sid ∧
    (close_session st sid).1.session_queue = (removeFirstBySid sid st.session_queue).1 ∧
    (close_session st sid).1.active_sessions = st.active_sessions.erase sid ∧
    statusOf (close_session st sid).1 sid =
      (statusOf st sid).map (fun _ => SessionStatus.completed) ∧
    (close_session st sid).1.queue_file =
      (if (removeFirstBySid sid st.session_queue).2 then
        some (serializeQueue (removeFirstBySid sid st.session_queue).1)
      else st.queue_file) := by
  rcases hss : alookup st.session_states sid with _ | s
  · rcases hmd : alookup st.session_metadata sid with _ | m <;>
      cases hq : (removeFirstBySid sid st.session_queue).2 <;>
        simp [close_session, clear_session_state, _persist_queue_state, acontains,
          statusOf, serializeQueue, hss, hmd, hq, alookup_aset_self,
          aremove_of_alookup_none _ _ hss]
  · rcases hmd : alookup st.session_metadata sid with _ | m <;>
      cases hq : (removeFirstBySid sid st.session_queue).2 <;>
        simp [close_session, clear_session_state, _persist_queue_state, acontains,
          statusOf, serializeQueue, hss, hmd, hq, alookup_aset_self]

/-- Claim C9 (implicit): `close_session` always removes the id from the
queue (first match), removes it from the active set, pops its session
state, and marks an existing metadata row `completed`; yet its
`success` flag is true exactly when an initialised model state was
present in `session_states` to release — so a still-queued or
already-closed session gets `success=false`. -/
theorem close_session_success_iff_state {ι : Type} [DecidableEq ι]
    (st : InferenceState ι) (sid : ι) :
    (close_session st sid).2 = acontains st.session_states sid ∧
    (close_session st sid).1.session_states = aremove st.session_states sid ∧
    (close_session st sid).1.session_queue = (removeFirstBySid sid st.session_queue).1 ∧
    (close_session st sid).1.active_sessions = st.active_sessions.erase sid ∧
    statusOf (close_session st sid).1 sid =
      (statusOf st sid).map (fun _ => SessionStatus.completed) := by
  obtain ⟨h1, h2, h3, h4, h5, _⟩ := close_session_components st sid
  exact ⟨h1, h2, h3, h4, h5⟩

/-- Claim C8: closing a session that is in the queue removes exactly
that entry, leaves every other entry present in the same relative
order, and persists the updated queue. -/
theorem close_session_removes_exactly {ι : Type} [DecidableEq ι]
    (st : InferenceState ι) (sid : ι)
    (hnd : (queueSids st).Nodup) (hmem : sid ∈ queueSids st) :
    (close_session st sid).1.session_queue =
      st.session_queue.filter (fun e => ! decide (e.sid = sid)) ∧
    (close_session st sid).1.queue_file =
      some (serializeQueue
        (st.session_queue.filter (fun e => ! decide (e.sid = sid)))) := by
  obtain ⟨_, _, h3, _, _, h6⟩ := close_session_components st sid
  have hflag : (removeFirstBySid sid st.session_queue).2 = true :=
    (removeFirstBySid_flag sid st.session_queue).mpr hmem
  have hfil := removeFirstBySid_eq_filter sid st.session_queue hnd
  rw [h3, hfil]
  refine ⟨rfl, ?_⟩
  rw [h6, hflag, if_pos rfl, hfil]

theorem processQueueAux_cons {ι : Type} [DecidableEq ι] (now : Nat)
    (e : QueueEntry ι) (rest : List (QueueEntry ι)) (st : InferenceState ι) :
    processQueueAux now (e :: rest) st =
      if st.active_sessions.card ≥ st.max_concurrent_sessions then
        { st with session_queue := e :: rest }
      else if e.sid ∈ st.active_sessions ∨ ¬ acontains st.session_metadata e.sid then
        processQueueAux now rest st
      else promoteEntry st e rest now := rfl

theorem clear_session_state_effects {ι : Type} [DecidableEq ι]
    (st : InferenceState ι) (sid : ι) :
    (clear_session_state st sid).1.session_queue = st.session_queue ∧
    (clear_session_state st sid).1.active_sessions = st.active_sessions ∧
    (clear_session_state st sid).1.max_concurrent_sessions = st.max_concurrent_sessions ∧
    (clear_session_state st sid).1.queue_file = st.queue_file ∧
    ∀ x, x ≠ sid →
      alookup (clear_session_state st sid).1.session_metadata x =
        alookup st.session_metadata x := by
  rcases hss : alookup st.session_states sid with _ | s
  · rcases hmd : alookup st.session_metadata sid with _ | m
    · simp [clear_session_state, hss, hmd]
    · simp only [clear_session_state, hss, hmd]
      refine ⟨trivial, trivial, trivial, trivial, ?_⟩
      intro x hx
      exact alookup_aset_ne _ _ _ _ hx
  · simp [clear_session_state, hss]

theorem processQueueAux_at_capacity {ι : Type} [DecidableEq ι] (now : Nat)
    (q : List (QueueEntry ι)) (st : InferenceState ι)
    (hcap : st.active_sessions.card ≥ st.max_concurrent_sessions) :
    processQueueAux now q st = { st with session_queue := q } := by
  cases q with
  | nil => simp [processQueueAux]
  | cons e rest => simp [processQueueAux, hcap]

theorem processQueueAux_characterization {ι : Type} [DecidableEq ι] (now : Nat) :
    ∀ (q : List (QueueEntry ι)) (st : InferenceState ι),
    st.active_sessions.card < st.max_concurrent_sessions →
    processQueueAux now q st =
      (match q.dropWhile (isBadHead st) with
       | [] => { st with session_queue := [] }
       | g :: tl => promoteEntry st g tl now) := by
  intro q
  induction q with
  | nil =>
      intro st h
      simp [processQueueAux, List.dropWhile]
  | cons e rest ih =>
      intro st h
      have hcap : ¬ st.active_sessions.card ≥ st.max_concurrent_sessions :=
        Nat.not_le.mpr h
      by_cases hbad : e.sid ∈ st.active_sessions ∨ ¬ acontains st.session_metadata e.sid
      · have hb : isBadHead st e = true := by
          rcases hbad with hb1 | hb2
          · simp [isBadHead, hb1]
          · simp only [Bool.not_eq_true] at hb2
            simp [isBadHead, hb2]
        have hstep : processQueueAux now (e :: rest) st =
            processQueueAux now rest st := by
          show (if st.active_sessions.card ≥ st.max_concurrent_sessions then
              ({ st with session_queue := e :: rest } : InferenceState ι)
            else if e.sid ∈ st.active_sessions ∨ ¬ acontains st.session_metadata e.sid then
              processQueueAux now rest st
            else promoteEntry st e rest now) = processQueueAux now rest st
          rw [if_neg hcap, if_pos hbad]
        rw [hstep, ih st h]
        simp [List.dropWhile, hb]
      · have hb : isBadHead st e = false := by
          push_neg at hbad
          simp [isBadHead, hbad.1, hbad.2]
        have hstep : processQueueAux now (e :: rest) st =
            promoteEntry st e rest now := by
          show (if st.active_sessions.card ≥ st.max_concurrent_sessions then
              ({ st with session_queue := e :: rest } : InferenceState ι)
            else if e.sid ∈ st.active_sessions ∨ ¬ acontains st.session_metadata e.sid then
              processQueueAux now rest st
            else promoteEntry st e rest now) = promoteEntry st e rest now
          rw [if_neg hcap, if_neg hbad]
        rw [hstep]
        simp [List.dropWhile, hb]

/-- Claim C6 (amended): a single `_process_queue` invocation admits at
most one session: when capacity remains it drops the defective prefix
of the queue (popped ids already active or lacking metadata are
discarded, not re-queued) and promotes exactly the first well-formed
entry — persisting the remaining queue and launching its
initialisation — or, when every entry was defective, merely empties the
queue; it never loops on to admit a second session within the same
invocation. -/
theorem process_queue_admits_at_most_one {ι : Type} [DecidableEq ι]
    (st : InferenceState ι) (now : Nat) :
    _process_queue st now = processQueueSpec st now := by
  unfold _process_queue processQueueSpec
  by_cases hcap : st.active_sessions.card ≥ st.max_concurrent_sessions
  · rw [processQueueAux_at_capacity now st.session_queue st hcap]
    by_cases hne : st.session_queue = []
    · rw [if_neg (by simp [hne])]
      rw [hne]
      simp [List.dropWhile]
    · rw [if_pos ⟨hcap, hne⟩]
  · have h := processQueueAux_characterization now st.session_queue st (Nat.lt_of_not_le hcap)
    rw [h]
    rw [if_neg (fun hx => hcap hx.1)]

/-- Claim C6 (counterexample): with spare capacity and two well-formed
queued sessions, one `_process_queue` invocation promotes only the
head; it returns with the queue still non-empty and capacity still
spare, contradicting the claim that pumping repeats until capacity is
full or the queue is empty. -/
theorem process_queue_not_exhaustive :
    queueSids (_process_queue stC6 5) = [2] ∧
    (_process_queue stC6 5).active_sessions.card <
      (_process_queue stC6 5).max_concurrent_sessions ∧
    (_process_queue stC6 5).session_queue ≠ [] := by
  decide

/-- Claim C3: a submit of a fresh session id arriving at capacity is
appended to the queue tail, the queue is persisted, and the response
reports `queued=true`, the post-append position, and
`int(position * avg_processing_time)` as the estimated wait. -/
theorem start_session_overflow_queues {ι : Type} [DecidableEq ι]
    (st : InferenceState ι) (sid : ι) (r : StartSessionRequest ι) (t : Nat)
    (hfresh : alookup st.session_metadata sid = none)
    (hcap : st.max_concurrent_sessions ≤ st.active_sessions.card) :
    (start_session st sid r t).1.session_queue = st.session_queue ++ [⟨sid, r, t⟩] ∧
    (start_session st sid r t).1.queue_file =
      some (serializeQueue (st.session_queue ++ [⟨sid, r, t⟩])) ∧
    (start_session st sid r t).2.queued = true ∧
    (start_session st sid r t).2.queue_position = st.session_queue.length + 1 ∧
    (start_session st sid r t).2.estimated_wait_time =
      pyInt ((st.session_queue.length + 1 : ℚ) * st.avg_processing_time) := by
  have hck : start_session_check st sid = Sum.inr true := by
    simp [start_session_check, hfresh, ge_iff_le, hcap]
  simp [start_session, hck, start_session_enqueue, _persist_queue_state]

theorem propagatePhase_no_cancel (cuda : Bool) (flag : Nat → Bool)
    (hflag : ∀ i, flag i = false) :
    ∀ (outs : List PropOutput) (i pf fl : Nat),
    (propagatePhase cuda flag outs i pf fl).1 = outs ∧
    (propagatePhase cuda flag outs i pf fl).2.2.2.2 = false := by
  intro outs
  induction outs with
  | nil => intro i pf fl; simp [propagatePhase]
  | cons o rest ih =>
      intro i pf fl
      simp [propagatePhase, hflag, ih]

theorem propagate_yields_all (cuda : Bool) (s : SessionState)
    (fwd bwd : List PropOutput) :
    (propagate_in_video cuda s (fun _ => false) fwd bwd).yields = fwd ++ bwd := by
  have hflag : ∀ i : Nat, (fun _ : Nat => false) i = false := fun _ => rfl
  have hf := propagatePhase_no_cancel cuda (fun _ => false) hflag fwd 0 0 0
  have hb := propagatePhase_no_cancel cuda (fun _ => false) hflag bwd
    (propagatePhase cuda (fun _ => false) fwd 0 0 0).2.1
    (propagatePhase cuda (fun _ => false) fwd 0 0 0).2.2.1
    (propagatePhase cuda (fun _ => false) fwd 0 0 0).2.2.2.1
  simp [propagate_in_video, propagation_direction, hf.1, hf.2, hb.1]

/-- Claim C10 (implicit): `propagate_in_video` resets the session
`canceled` flag to false before producing any element, so the stream is
insensitive to the flag value the session had when it started; in
particular a cancellation issued before the stream begins (and none
afterwards) does not stop it from yielding every forward and backward
output. -/
theorem propagate_in_video_resets_canceled (cuda : Bool) (s : SessionState)
    (b : Bool) (cancelRead : Nat → Bool) (fwd bwd : List PropOutput) :
    propagate_in_video cuda { s with canceled := b } cancelRead fwd bwd =
      propagate_in_video cuda s cancelRead fwd bwd ∧
    (propagate_in_video cuda
      (cancel_propagate_in_video { s with canceled := b }).1
      (fun _ => false) fwd bwd).yields = fwd ++ bwd := by
  exact ⟨rfl, propagate_yields_all cuda _ fwd bwd⟩

theorem propagatePhase_length_le (cuda : Bool) (flag : Nat → Bool) (n : Nat)
    (hmono : ∀ i j, i ≤ j → flag i = true → flag j = true)
    (hn : flag n = true) :
    ∀ (outs : List PropOutput) (i pf fl : Nat),
    (propagatePhase cuda flag outs i pf fl).1.length + i ≤ max i n := by
  intro outs
  induction outs with
  | nil =>
      intro i pf fl
      simp [propagatePhase]
  | cons o rest ih =>
      intro i pf fl
      cases hf : flag i with
      | true =>
          simp [propagatePhase, hf]
      | false =>
          have hlt : i < n := by
            rcases Nat.lt_or_ge i n with h | h
            · exact h
            · exact absurd (hmono n i h hn) (by simp [hf])
          have hrec := ih (i + 1) (pf + 1)
            (fl + (if (pf + 1) % 10 = 0 ∧ cuda then 1 else 0))
          have hmax : max (i + 1) n = n := Nat.max_eq_right hlt
          have hmax2 : max i n = n := Nat.max_eq_right (Nat.le_of_lt hlt)
          simp only [propagatePhase, hf, Bool.false_eq_true, if_false,
            List.length_cons] at hrec ⊢
          omega

theorem propagatePhase_idx_ge (cuda : Bool) (flag : Nat → Bool) :
    ∀ (outs : List PropOutput) (i pf fl : Nat),
    i + (propagatePhase cuda flag outs i pf fl).1.length ≤
      (propagatePhase cuda flag outs i pf fl).2.1 := by
  intro outs
  induction outs with
  | nil => intro i pf fl; simp [propagatePhase]
  | cons o rest ih =>
      intro i pf fl
      cases hf : flag i with
      | true => simp [propagatePhase, hf]
      | false =>
          have hrec := ih (i + 1) (pf + 1)
            (fl + (if (pf + 1) % 10 = 0 ∧ cuda then 1 else 0))
          simp only [propagatePhase, hf, Bool.false_eq_true, if_false,
            List.length_cons] at hrec ⊢
          omega

/-- Claim C7: once a cancellation has been issued during the stream (the
flag reads are monotone and read `n` observes it), the propagation loop
observes the flag before the next yield: at most `n` elements are ever
yielded, no error is raised, and on a cuda device the accelerator cache
is flushed on the way out. -/
theorem propagate_in_video_cancel_terminates (cuda : Bool) (s : SessionState)
    (cancelRead : Nat → Bool) (fwd bwd : List PropOutput) (n : Nat)
    (hmono : ∀ i j, i ≤ j → cancelRead i = true → cancelRead j = true)
    (hn : cancelRead n = true) :
    (propagate_in_video cuda s cancelRead fwd bwd).yields.length ≤ n ∧
    (propagate_in_video cuda s cancelRead fwd bwd).error = none ∧
    (cuda = true → 1 ≤ (propagate_in_video cuda s cancelRead fwd bwd).cache_flushes) := by
  have hfwd := propagatePhase_length_le cuda (fun i => cancelRead i) n hmono hn fwd 0 0 0
  have hfidx := propagatePhase_idx_ge cuda (fun i => cancelRead i) fwd 0 0 0
  have hbwd := propagatePhase_length_le cuda (fun i => cancelRead i) n hmono hn bwd
    (propagatePhase cuda (fun i => cancelRead i) fwd 0 0 0).2.1
    (propagatePhase cuda (fun i => cancelRead i) fwd 0 0 0).2.2.1
    (propagatePhase cuda (fun i => cancelRead i) fwd 0 0 0).2.2.2.1
  have h0 : max 0 n = n := Nat.zero_max n
  rcases hc : (propagatePhase cuda (fun i => cancelRead i) fwd 0 0 0).2.2.2.2 with _ | _
  · refine ⟨?_, ?_, ?_⟩
    · simp only [propagate_in_video, propagation_direction]
      simp [hc]
      rcases Nat.le_total (propagatePhase cuda (fun i => cancelRead i) fwd 0 0 0).2.1 n with h | h
      · have := Nat.max_eq_right h
        omega
      · have := Nat.max_eq_left h
        omega
    · simp [propagate_in_video, propagation_direction, hc]
    · intro hcuda
      subst hcuda
      simp [propagate_in_video, propagation_direction, hc]
  · refine ⟨?_, ?_, ?_⟩
    · simp [propagate_in_video, propagation_direction, hc]
      omega
    · simp [propagate_in_video, propagation_direction, hc]
    · intro hcuda
      subst hcuda
      simp [propagate_in_video, propagation_direction, hc]

/-- Claim C4: `QueueManager.save_queue` does not write through a
temporary file plus rename; it truncates `queue_data.json` in place and
then dumps the new image, so a reader between the two steps observes a
file that is neither the complete pre-save image nor the complete
post-save image (here: the truncated empty file), while the
spec-modelled atomic save never exposes such a state and the actual
save performs no rename at all. -/
theorem save_queue_not_atomic :
    contentsDuring (FileContent.image [diskE1]) (save_queue_fsOps [diskE2]) =
      [some (FileContent.image [diskE1]), some FileContent.empty,
       some (FileContent.image [diskE2])] ∧
    some FileContent.empty ≠ some (FileContent.image [diskE1]) ∧
    some FileContent.empty ≠ some (FileContent.image [diskE2]) ∧
    ((save_queue_fsOps [diskE2]).all
      (fun op => match op with
        | FsOp.rename _ _ => false
        | _ => true)) = true ∧
    ((contentsDuring (FileContent.image [diskE1]) (atomic_save_fsOps [diskE2])).all
      (fun c => c ≠ some FileContent.empty)) = true := by
  decide

/-- Claim C5: `load_queue` degrades an absent or unreadable file to the
empty queue, and a record without a parseable request shape is skipped;
but a record carrying a (truthy, dict-shaped) `video_metadata` raises
`NameError` (`VideoMetadata` is not imported in predictor.py), the
outer `except` catches it, and the whole restore is abandoned: even the
perfectly parseable first record is not restored, contradicting the
claim that only the offending record is skipped. -/
theorem restore_aborts_on_video_metadata :
    load_queue (QueueFileState.absent (ι := Nat)) = [] ∧
    load_queue (QueueFileState.corrupt (ι := Nat)) = [] ∧
    (_restore_queue_state initState
      (QueueFileState.data [diskE1,
        { session_id := 3, request_data := { path := none }, enqueue_time := 2 }])).session_queue =
      [⟨1, mkRestoredRequest 1 "a.mp4", 0⟩] ∧
    (_restore_queue_state initState
      (QueueFileState.data [diskE1])).session_queue =
      [⟨1, mkRestoredRequest 1 "a.mp4", 0⟩] ∧
    (_restore_queue_state initState
      (QueueFileState.data [diskE1, diskE2])).session_queue = [] := by
  decide

theorem clear_session_state_queue {ι : Type} [DecidableEq ι]
    (st : InferenceState ι) (sid : ι) :
    (clear_session_state st sid).1.session_queue = st.session_queue :=
  (clear_session_state_effects st sid).1

theorem clear_session_state_active {ι : Type} [DecidableEq ι]
    (st : InferenceState ι) (sid : ι) :
    (clear_session_state st sid).1.active_sessions = st.active_sessions :=
  (clear_session_state_effects st sid).2.1

theorem clear_session_state_max {ι : Type} [DecidableEq ι]
    (st : InferenceState ι) (sid : ι) :
    (clear_session_state st sid).1.max_concurrent_sessions =
      st.max_concurrent_sessions :=
  (clear_session_state_effects st sid).2.2.1

theorem start_session_check_inr {ι : Type} [DecidableEq ι]
    (st : InferenceState ι) (sid : ι) (b : Bool)
    (h : start_session_check st sid = Sum.inr b) :
    b = decide (st.active_sessions.card ≥ st.max_concurrent_sessions) := by
  rcases hmd : alookup st.session_metadata sid with _ | m
  · simp only [start_session_check, hmd] at h
    exact (Sum.inr.inj h).symm
  · simp only [start_session_check, hmd] at h
    by_cases hs : m.status = SessionStatus.processing ∨
        m.status = SessionStatus.completed
    · rw [if_pos hs] at h
      cases h
    · rw [if_neg hs] at h
      exact (Sum.inr.inj h).symm

theorem processQueueAux_max {ι : Type} [DecidableEq ι] (now : Nat) :
    ∀ (q : List (QueueEntry ι)) (st : InferenceState ι),
    (processQueueAux now q st).max_concurrent_sessions =
      st.max_concurrent_sessions := by
  intro q
  induction q with
  | nil => intro st; rfl
  | cons e rest ih =>
      intro st
      rw [processQueueAux_cons]
      split_ifs with h1 h2
      · rfl
      · exact ih st
      · rfl

theorem processQueueAux_cap {ι : Type} [DecidableEq ι] (now : Nat) :
    ∀ (q : List (QueueEntry ι)) (st : InferenceState ι),
    st.active_sessions.card ≤ st.max_concurrent_sessions →
    (processQueueAux now q st).active_sessions.card ≤
      (processQueueAux now q st).max_concurrent_sessions := by
  intro q
  induction q with
  | nil => intro st h; exact h
  | cons e rest ih =>
      intro st h
      rw [processQueueAux_cons]
      split_ifs with h1 h2
      · exact h
      · exact ih st h
      · show (insert e.sid st.active_sessions).card ≤ st.max_concurrent_sessions
        calc (insert e.sid st.active_sessions).card
            ≤ st.active_sessions.card + 1 := Finset.card_insert_le _ _
          _ ≤ st.max_concurrent_sessions := Nat.lt_of_not_le h1

theorem close_session_max {ι : Type} [DecidableEq ι]
    (st : InferenceState ι) (sid : ι) :
    (close_session st sid).1.max_concurrent_sessions =
      st.max_concurrent_sessions := by
  unfold close_session
  rcases hq : (removeFirstBySid sid st.session_queue).2 <;>
    simp [hq, _persist_queue_state, clear_session_state_max]

theorem reapOne_max {ι : Type} [DecidableEq ι]
    (acc : InferenceState ι × Bool) (sid : ι) :
    (reapOne acc sid).1.max_concurrent_sessions =
      acc.1.max_concurrent_sessions := by
  simp [reapOne, clear_session_state_max]

theorem reapOne_cap {ι : Type} [DecidableEq ι]
    (acc : InferenceState ι × Bool) (sid : ι)
    (h : acc.1.active_sessions.card ≤ acc.1.max_concurrent_sessions) :
    (reapOne acc sid).1.active_sessions.card ≤
      (reapOne acc sid).1.max_concurrent_sessions := by
  simp only [reapOne, clear_session_state_max, clear_session_state_active]
  exact le_trans (Finset.card_erase_le) h

theorem reapFold_max {ι : Type} [DecidableEq ι] :
    ∀ (l : List ι) (acc : InferenceState ι × Bool),
    ((l.foldl reapOne acc).1).max_concurrent_sessions =
      acc.1.max_concurrent_sessions := by
  intro l
  induction l with
  | nil => intro acc; rfl
  | cons x xs ih =>
      intro acc
      rw [List.foldl_cons, ih (reapOne acc x), reapOne_max]

theorem reapFold_cap {ι : Type} [DecidableEq ι] :
    ∀ (l : List ι) (acc : InferenceState ι × Bool),
    acc.1.active_sessions.card ≤ acc.1.max_concurrent_sessions →
    ((l.foldl reapOne acc).1).active_sessions.card ≤
      ((l.foldl reapOne acc).1).max_concurrent_sessions := by
  intro l
  induction l with
  | nil => intro acc h; exact h
  | cons x xs ih =>
      intro acc h
      rw [List.foldl_cons]
      exact ih (reapOne acc x) (reapOne_cap acc x h)

theorem process_session_fail_cap {ι : Type} [DecidableEq ι]
    (st : InferenceState ι) (sid : ι)
    (h : st.active_sessions.card ≤ st.max_concurrent_sessions) :
    (process_session_fail st sid).active_sessions.card ≤
      (process_session_fail st sid).max_concurrent_sessions := by
  simp only [process_session_fail]
  exact le_trans (Finset.card_erase_le) h

theorem process_session_ok_cap {ι : Type} [DecidableEq ι]
    (st : InferenceState ι) (sid : ι) (r : StartSessionRequest ι) (t : Nat)
    (h : st.active_sessions.card ≤ st.max_concurrent_sessions) :
    (process_session_ok st sid r t).active_sessions.card ≤
      (process_session_ok st sid r t).max_concurrent_sessions := by
  rcases hmd : alookup st.session_metadata sid with _ | m
  · simp only [process_session_ok, hmd]
    exact processQueueAux_cap t _ _ (process_session_fail_cap _ sid h)
  · rcases hpst : m.processing_start_time with _ | pst
    · simp only [process_session_ok, hmd, hpst]
      exact processQueueAux_cap t _ _ (process_session_fail_cap _ sid h)
    · simp only [process_session_ok, hmd, hpst]
      exact processQueueAux_cap t _ _ h

theorem step_cap {ι : Type} [DecidableEq ι] (st : InferenceState ι) (op : Op ι)
    (h : st.active_sessions.card ≤ st.max_concurrent_sessions) :
    (step st op).active_sessions.card ≤
      (step st op).max_concurrent_sessions := by
  cases op with
  | submit sid r t =>
      rcases hck : start_session_check st sid with o | b
      · rcases o with _ | resp <;> simp [step, start_session, hck] <;> exact h
      · cases b with
        | false =>
            have hb := start_session_check_inr st sid false hck
            have hlt : st.active_sessions.card < st.max_concurrent_sessions := by
              by_contra hge
              have : decide (st.active_sessions.card ≥ st.max_concurrent_sessions) = true :=
                decide_eq_true (Nat.le_of_not_lt hge)
              rw [← hb] at this
              cases this
            simp only [step, start_session, hck, start_session_activate]
            calc (insert sid st.active_sessions).card
                ≤ st.active_sessions.card + 1 := Finset.card_insert_le _ _
              _ ≤ st.max_concurrent_sessions := hlt
        | true =>
            simp only [step, start_session, hck, start_session_enqueue,
              _persist_queue_state]
            exact h
  | pump now =>
      exact processQueueAux_cap now st.session_queue st h
  | close sid =>
      have hact := (close_session_components st sid).2.2.2.1
      have hmax := close_session_max st sid
      rw [show step st (Op.close sid) = (close_session st sid).1 from rfl,
        hact, hmax]
      exact le_trans (Finset.card_erase_le) h
  | reaper now =>
      simp only [step, _check_and_cleanup_sessions]
      split_ifs with hexp hu
      · exact h
      · exact processQueueAux_cap now _ _ (reapFold_cap _ (st, false) h)
      · exact reapFold_cap _ (st, false) h
  | initOk sid t =>
      rcases hp : takePendingInit sid st.pending_inits with ⟨_ | r, rest⟩
      · simp [step, hp]
        exact h
      · simp only [step, hp]
        exact process_session_ok_cap _ sid r t h
  | initErr sid now =>
      rcases hp : takePendingInit sid st.pending_inits with ⟨_ | r, rest⟩
      · simp [step, hp]
        exact h
      · simp only [step, hp, process_session_err]
        exact processQueueAux_cap now _ _ (process_session_fail_cap _ sid h)

theorem process_session_ok_max {ι : Type} [DecidableEq ι]
    (st : InferenceState ι) (sid : ι) (r : StartSessionRequest ι) (t : Nat) :
    (process_session_ok st sid r t).max_concurrent_sessions =
      st.max_concurrent_sessions := by
  rcases hmd : alookup st.session_metadata sid with _ | m
  · simp only [process_session_ok, hmd]
    exact processQueueAux_max t _ _
  · rcases hpst : m.processing_start_time with _ | pst <;>
      simp only [process_session_ok, hmd, hpst] <;>
        exact processQueueAux_max t _ _

theorem step_max {ι : Type} [DecidableEq ι] (st : InferenceState ι) (op : Op ι) :
    (step st op).max_concurrent_sessions = st.max_concurrent_sessions := by
  cases op with
  | submit sid r t =>
      rcases hck : start_session_check st sid with o | b
      · rcases o with _ | resp <;> simp [step, start_session, hck]
      · cases b <;>
          simp [step, start_session, hck, start_session_activate,
            start_session_enqueue, _persist_queue_state]
  | pump now => exact processQueueAux_max now st.session_queue st
  | close sid => exact close_session_max st sid
  | reaper now =>
      simp only [step, _check_and_cleanup_sessions]
      split_ifs with hexp hu
      · rfl
      · exact (processQueueAux_max now _ _).trans (reapFold_max _ (st, false))
      · exact reapFold_max _ (st, false)
  | initOk sid t =>
      rcases hp : takePendingInit sid st.pending_inits with ⟨_ | r, rest⟩
      · simp [step, hp]
      · simp only [step, hp]
        exact process_session_ok_max _ sid r t
  | initErr sid now =>
      rcases hp : takePendingInit sid st.pending_inits with ⟨_ | r, rest⟩
      · simp [step, hp]
      · simp only [step, hp, process_session_err]
        exact processQueueAux_max now _ _

theorem run_max {ι : Type} [DecidableEq ι] :
    ∀ (ops : List (Op ι)) (st : InferenceState ι),
    (run st ops).max_concurrent_sessions = st.max_concurrent_sessions := by
  intro ops
  induction ops with
  | nil => intro st; rfl
  | cons op rest ih =>
      intro st
      rw [show run st (op :: rest) = run (step st op) rest from rfl,
        ih (step st op), step_max]

theorem run_cap {ι : Type} [DecidableEq ι] :
    ∀ (ops : List (Op ι)) (st : InferenceState ι),
    st.active_sessions.card ≤ st.max_concurrent_sessions →
    (run st ops).active_sessions.card ≤
      (run st ops).max_concurrent_sessions := by
  intro ops
  induction ops with
  | nil => intro st h; exact h
  | cons op rest ih =>
      intro st h
      exact ih (step st op) (step_cap st op h)

/-- Claim C2 (amended): in the machine where each submit performs its
capacity check and its admission with no interleaved operation between
the two lock sections (with pump, close, reaper and initialisation
completions interleaved arbitrarily), every reachable state keeps the
active set within `max_concurrent_sessions`, which stays at its
configured value 5. With submits interleaved at the lock boundary the
bound fails (see the counterexample theorem). -/
theorem active_sessions_bounded (ops : List (Op Nat)) :
    (run initState ops).active_sessions.card ≤
      (run initState ops).max_concurrent_sessions ∧
    (run initState ops).max_concurrent_sessions = 5 :=
  ⟨run_cap ops initState (Nat.zero_le _), run_max ops initState⟩

/-- Claim C2 (counterexample): two capacity checks that both run before
either admission (the lock is released between the check and the
admission in `start_session`) drive the active set to 6 while the cap
is 5. -/
theorem interleaved_submits_exceed_cap :
    (runFine initState fopsC2).active_sessions.card = 6 ∧
    (runFine initState fopsC2).max_concurrent_sessions = 5 := by
  decide

theorem close_session_metadata_other {ι : Type} [DecidableEq ι]
    (st : InferenceState ι) (sid x : ι) (hx : x ≠ sid) :
    alookup (close_session st sid).1.session_metadata x =
      alookup st.session_metadata x := by
  rcases hss : alookup st.session_states sid with _ | s <;>
    rcases hmd : alookup st.session_metadata sid with _ | m <;>
      cases hq : (removeFirstBySid sid st.session_queue).2 <;>
        simp [close_session, clear_session_state, _persist_queue_state, hss, hmd,
          hq, alookup_aset_self, alookup_aset_ne _ _ _ _ hx]

theorem processQueueAux_inv {ι : Type} [DecidableEq ι] (now : Nat) :
    ∀ (q : List (QueueEntry ι)) (st : InferenceState ι),
    InvParts q st.active_sessions st.session_metadata →
    Inv (processQueueAux now q st) := by
  intro q
  induction q with
  | nil =>
      intro st h
      exact ⟨List.nodup_nil, fun x hx => absurd hx (List.not_mem_nil x), h.2.2⟩
  | cons e rest ih =>
      intro st h
      obtain ⟨hnd, hdis, hst⟩ := h
      have hndc : e.sid ∉ rest.map QueueEntry.sid ∧
          (rest.map QueueEntry.sid).Nodup := by
        have hx := hnd
        rw [List.map_cons, List.nodup_cons] at hx
        exact hx
      rw [processQueueAux_cons]
      split_ifs with h1 h2
      · exact ⟨hnd, hdis, hst⟩
      · exact ih st ⟨hndc.2,
          fun x hx => hdis x (List.mem_cons_of_mem _ hx), hst⟩
      · push_neg at h2
        obtain ⟨hact, hmdc⟩ := h2
        rcases hm : alookup st.session_metadata e.sid with _ | m
        · simp [acontains, hm] at hmdc
        · simp only [promoteEntry, _persist_queue_state, hm, Inv]
          refine ⟨hndc.2, ?_, ?_⟩
          · intro x hx hmem
            rcases Finset.mem_insert.mp hmem with h3 | h3
            · exact hndc.1 (h3 ▸ List.mem_map_of_mem QueueEntry.sid hx)
            · exact hdis x (List.mem_cons_of_mem _ hx) h3
          · intro a ha
            rcases Finset.mem_insert.mp ha with rfl | ha2
            · rw [alookup_aset_self]
              rfl
            · have hane : a ≠ e.sid := fun hEq => hact (hEq ▸ ha2)
              rw [alookup_aset_ne _ _ _ _ hane]
              exact hst a ha2

theorem close_session_inv {ι : Type} [DecidableEq ι]
    (st : InferenceState ι) (sid : ι) (h : Inv st) :
    Inv (close_session st sid).1 := by
  obtain ⟨hnd, hdis, hst⟩ := h
  obtain ⟨_, _, h3, h4, _, _⟩ := close_session_components st sid
  refine ⟨?_, ?_, ?_⟩
  · rw [h3]
    exact (removeFirstBySid_map_sid sid _).nodup hnd
  · intro x hx hmem
    rw [h3] at hx
    rw [h4] at hmem
    exact hdis x ((removeFirstBySid_sublist sid _).subset hx)
      (Finset.mem_of_mem_erase hmem)
  · intro a ha
    rw [h4] at ha
    have hane : a ≠ sid := Finset.ne_of_mem_erase ha
    show (alookup (close_session st sid).1.session_metadata a).map
      SessionMeta.status = some SessionStatus.processing
    rw [close_session_metadata_other st sid a hane]
    exact hst a (Finset.mem_of_mem_erase ha)

theorem reapOne_inv {ι : Type} [DecidableEq ι]
    (acc : InferenceState ι × Bool) (sid : ι) (h : Inv acc.1) :
    Inv (reapOne acc sid).1 := by
  obtain ⟨hnd, hdis, hst⟩ := h
  have he := clear_session_state_effects
    { acc.1 with
      session_queue := (removeFirstBySid sid acc.1.session_queue).1
      active_sessions := acc.1.active_sessions.erase sid } sid
  refine ⟨?_, ?_, ?_⟩
  · show ((reapOne acc sid).1.session_queue.map QueueEntry.sid).Nodup
    rw [show (reapOne acc sid).1.session_queue =
      (removeFirstBySid sid acc.1.session_queue).1 from he.1]
    exact (removeFirstBySid_map_sid sid _).nodup hnd
  · intro x hx hmem
    rw [show (reapOne acc sid).1.session_queue =
      (removeFirstBySid sid acc.1.session_queue).1 from he.1] at hx
    rw [show (reapOne acc sid).1.active_sessions =
      acc.1.active_sessions.erase sid from he.2.1] at hmem
    exact hdis x ((removeFirstBySid_sublist sid _).subset hx)
      (Finset.mem_of_mem_erase hmem)
  · intro a ha
    rw [show (reapOne acc sid).1.active_sessions =
      acc.1.active_sessions.erase sid from he.2.1] at ha
    have hane : a ≠ sid := Finset.ne_of_mem_erase ha
    show (alookup (reapOne acc sid).1.session_metadata a).map
      SessionMeta.status = some SessionStatus.processing
    rw [show alookup (reapOne acc sid).1.session_metadata a =
      alookup acc.1.session_metadata a from he.2.2.2.2 a hane]
    exact hst a (Finset.mem_of_mem_erase ha)

theorem reapFold_inv {ι : Type} [DecidableEq ι] :
    ∀ (l : List ι) (acc : InferenceState ι × Bool),
    Inv acc.1 → Inv ((l.foldl reapOne acc).1) := by
  intro l
  induction l with
  | nil => intro acc h; exact h
  | cons x xs ih =>
      intro acc h
      exact ih (reapOne acc x) (reapOne_inv acc x h)

theorem cleanup_inv {ι : Type} [DecidableEq ι]
    (st : InferenceState ι) (now : Nat) (h : Inv st) :
    Inv (_check_and_cleanup_sessions st now) := by
  simp only [_check_and_cleanup_sessions]
  split_ifs with hexp hu
  · exact h
  · exact processQueueAux_inv now _ _ (reapFold_inv _ (st, false) h)
  · exact reapFold_inv _ (st, false) h

theorem process_session_fail_inv {ι : Type} [DecidableEq ι]
    (st : InferenceState ι) (sid : ι) (h : Inv st) :
    Inv (process_session_fail st sid) := by
  obtain ⟨hnd, hdis, hst⟩ := h
  rcases hmd : alookup st.session_metadata sid with _ | m <;>
    simp only [process_session_fail, hmd]
  · refine ⟨hnd, ?_, ?_⟩
    · intro x hx hmem
      exact hdis x hx (Finset.mem_of_mem_erase hmem)
    · intro a ha
      exact hst a (Finset.mem_of_mem_erase ha)
  · refine ⟨hnd, ?_, ?_⟩
    · intro x hx hmem
      exact hdis x hx (Finset.mem_of_mem_erase hmem)
    · intro a ha
      have hane : a ≠ sid := Finset.ne_of_mem_erase ha
      rw [alookup_aset_ne _ _ _ _ hane]
      exact hst a (Finset.mem_of_mem_erase ha)

theorem process_session_ok_inv {ι : Type} [DecidableEq ι]
    (st : InferenceState ι) (sid : ι) (r : StartSessionRequest ι) (t : Nat)
    (h : Inv st) : Inv (process_session_ok st sid r t) := by
  obtain ⟨hnd, hdis, hst⟩ := h
  rcases hmd : alookup st.session_metadata sid with _ | m
  · simp only [process_session_ok, hmd]
    exact processQueueAux_inv t _ _
      (process_session_fail_inv _ sid ⟨hnd, hdis, hst⟩)
  · rcases hpst : m.processing_start_time with _ | pst
    · simp only [process_session_ok, hmd, hpst]
      exact processQueueAux_inv t _ _
        (process_session_fail_inv _ sid ⟨hnd, hdis, hst⟩)
    · simp only [process_session_ok, hmd, hpst]
      apply processQueueAux_inv
      refine ⟨hnd, hdis, ?_⟩
      intro a ha
      by_cases hEq : a = sid
      · subst hEq
        rw [alookup_aset_self]
        have hsta := hst a ha
        rw [hmd] at hsta
        simpa using hsta
      · rw [alookup_aset_ne _ _ _ _ hEq]
        exact hst a ha

theorem start_session_inv {ι : Type} [DecidableEq ι]
    (st : InferenceState ι) (sid : ι) (r : StartSessionRequest ι) (t : Nat)
    (h : Inv st) (hq : sid ∉ queueSids st) :
    Inv (start_session st sid r t).1 := by
  obtain ⟨hnd, hdis, hst⟩ := h
  rcases hck : start_session_check st sid with o | b
  · rcases o with _ | resp <;> simp only [start_session, hck] <;>
      exact ⟨hnd, hdis, hst⟩
  · have hnact : sid ∉ st.active_sessions := by
      intro hmem
      have hstat := hst sid hmem
      rcases hmd2 : alookup st.session_metadata sid with _ | m
      · rw [hmd2] at hstat
        cases hstat
      · rw [hmd2] at hstat
        have hpr : m.status = SessionStatus.processing := by
          simpa using hstat
        have hinl : start_session_check st sid = Sum.inl (some
            { session_id := sid
              queued := decide (m.status = SessionStatus.queued)
              queue_position := 0
              estimated_wait_time := 0 }) := by
          simp [start_session_check, hmd2, hpr]
        rw [hck] at hinl
        cases hinl
    cases b
    · simp only [start_session, start_session_activate, hck]
      refine ⟨hnd, ?_, ?_⟩
      · intro x hx hmem
        rcases Finset.mem_insert.mp hmem with h3 | h3
        · exact hq (h3 ▸ List.mem_map_of_mem QueueEntry.sid hx)
        · exact hdis x hx h3
      · intro a ha
        rcases Finset.mem_insert.mp ha with rfl | ha2
        · rw [alookup_aset_self]
          rfl
        · have hane : a ≠ sid := fun hEq => hnact (hEq ▸ ha2)
          rw [alookup_aset_ne _ _ _ _ hane]
          exact hst a ha2
    · simp only [start_session, start_session_enqueue, _persist_queue_state, hck]
      refine ⟨?_, ?_, ?_⟩
      · rw [List.map_append]
        refine List.Nodup.append hnd (List.nodup_singleton _) ?_
        intro a ha hb
        simp only [List.map_cons, List.map_nil, List.mem_singleton] at hb
        subst hb
        exact hq ha
      · intro x hx hmem
        rcases List.mem_append.mp hx with hx1 | hx2
        · exact hdis x hx1 hmem
        · simp only [List.mem_singleton] at hx2
          subst hx2
          exact hnact hmem
      · intro a ha
        by_cases hEq : a = sid
        · subst hEq
          exact absurd ha hnact
        · rw [alookup_aset_ne _ _ _ _ hEq]
          exact hst a ha

theorem step_inv {ι : Type} [DecidableEq ι] (st : InferenceState ι) (op : Op ι)
    (h : Inv st)
    (hok : ∀ sid r t, op = Op.submit sid r t → sid ∉ queueSids st) :
    Inv (step st op) := by
  cases op with
  | submit sid r t => exact start_session_inv st sid r t h (hok sid r t rfl)
  | pump now => exact processQueueAux_inv now _ _ h
  | close sid => exact close_session_inv st sid h
  | reaper now => exact cleanup_inv st now h
  | initOk sid t =>
      rcases hp : takePendingInit sid st.pending_inits with ⟨_ | r2, rest⟩
      · simp only [step, hp]
        exact h
      · simp only [step, hp]
        exact process_session_ok_inv _ sid r2 t h
  | initErr sid now =>
      rcases hp : takePendingInit sid st.pending_inits with ⟨_ | r2, rest⟩
      · simp only [step, hp]
        exact h
      · simp only [step, hp, process_session_err]
        exact processQueueAux_inv now _ _ (process_session_fail_inv _ sid h)

theorem run_inv {ι : Type} [DecidableEq ι] :
    ∀ (ops : List (Op ι)) (st : InferenceState ι),
    Inv st → legalOps st ops = true → Inv (run st ops) := by
  intro ops
  induction ops with
  | nil => intro st h _; exact h
  | cons op rest ih =>
      intro st h hleg
      simp only [legalOps, Bool.and_eq_true] at hleg
      refine ih (step st op) (step_inv st op h ?_) hleg.2
      intro sid r t hEq
      subst hEq
      simpa using hleg.1

/-- Claim C1 (amended): over every operation sequence from a fresh
server in which no submit re-uses a session id that is currently in the
pending queue, each session id appears at most once in the queue and in
at most one of the queue and the active set. (As stated the claim
fails: re-submitting an already queued id does create a second queue
entry — see the counterexample theorem.) -/
theorem queue_active_exclusive (ops : List (Op Nat))
    (hleg : legalOps initState ops = true) :
    (queueSids (run initState ops)).Nodup ∧
    ∀ sid ∈ queueSids (run initState ops),
      sid ∉ (run initState ops).active_sessions := by
  have hinv : Inv initState := by
    refine ⟨List.nodup_nil, ?_, ?_⟩ <;> intro x hx <;> simp [initState] at hx
  have h := run_inv ops initState hinv hleg
  obtain ⟨h1, h2, _⟩ := h
  refine ⟨h1, ?_⟩
  intro sid hsid
  obtain ⟨e, he, rfl⟩ := List.mem_map.mp hsid
  exact h2 e he

/-- Claim C1 (counterexample): with capacity 5 full, submitting the
fresh id 6 queues it; submitting id 6 again falls through the
`processing`/`completed` idempotency check (its status is `queued`) and
appends a second queue entry for the same id. -/
theorem resubmit_queued_duplicates_queue :
    queueSids (run initState opsC1) = [6, 6] ∧
    ¬ (queueSids (run initState opsC1)).Nodup := by
  decide

/-- Witness for the amended claim C1: a legal trace exercising submits,
overflow, close, pump, initialisation completion and the reaper, after
which the queue sids are distinct and disjoint from the active set. -/
theorem queue_active_exclusive_witness :
    legalOps initState opsC1W = true ∧
    ((queueSids (run initState opsC1W)).Nodup ∧
     ∀ sid ∈ queueSids (run initState opsC1W),
       sid ∉ (run initState opsC1W).active_sessions) :=
  ⟨by decide, queue_active_exclusive opsC1W (by decide)⟩

unseal Rat.mul in
/-- Witness for claim C3: at capacity 5 with the initial average of
60 s, the first overflow submit is answered `queued=true, position=1,
estimated_wait=60` and appended to the queue tail; the second overflow
gets `position=2, estimated_wait=120`. -/
theorem start_session_overflow_queues_witness :
    alookup stC3.session_metadata 6 = none ∧
    stC3.max_concurrent_sessions ≤ stC3.active_sessions.card ∧
    (start_session stC3 6 (rqW 6) 1).2.queued = true ∧
    (start_session stC3 6 (rqW 6) 1).2.queue_position = 1 ∧
    (start_session stC3 6 (rqW 6) 1).2.estimated_wait_time = 60 ∧
    (start_session stC3 6 (rqW 6) 1).1.session_queue =
      stC3.session_queue ++ [⟨6, rqW 6, 1⟩] ∧
    (start_session stC3b 7 (rqW 7) 2).2.queue_position = 2 ∧
    (start_session stC3b 7 (rqW 7) 2).2.estimated_wait_time = 120 :=
  ⟨by decide, by decide,
   (start_session_overflow_queues stC3 6 (rqW 6) 1 (by decide) (by decide)).2.2.1,
   by decide, by decide,
   (start_session_overflow_queues stC3 6 (rqW 6) 1 (by decide) (by decide)).1,
   by decide, by decide⟩

/-- Witness for claim C7: with ten backend outputs and a cancellation
observed from the third flag read onward, the stream yields at most two
elements, raises no error, and flushes the accelerator cache. -/
theorem propagate_cancel_witness :
    (∀ i j : Nat, i ≤ j → decide (2 ≤ i) = true → decide (2 ≤ j) = true) ∧
    decide (2 ≤ 2) = true ∧
    ((propagate_in_video true sessW (fun i => decide (2 ≤ i))
        (outsW 5) (outsW 5)).yields.length ≤ 2 ∧
     (propagate_in_video true sessW (fun i => decide (2 ≤ i))
        (outsW 5) (outsW 5)).error = none ∧
     (true = true → 1 ≤ (propagate_in_video true sessW (fun i => decide (2 ≤ i))
        (outsW 5) (outsW 5)).cache_flushes)) :=
  ⟨fun i j hij hi => decide_eq_true (Nat.le_trans (of_decide_eq_true hi) hij),
   by decide,
   propagate_in_video_cancel_terminates true sessW (fun i => decide (2 ≤ i))
     (outsW 5) (outsW 5) 2
     (fun i j hij hi => decide_eq_true (Nat.le_trans (of_decide_eq_true hi) hij))
     (by decide)⟩

/-- Witness for claim C8: closing the queued session 2 of a three-entry
queue removes exactly its entry, keeps sessions 1 and 3 in order, and
persists the result. -/
theorem close_session_removes_exactly_witness :
    (queueSids stC8).Nodup ∧
    2 ∈ queueSids stC8 ∧
    ((close_session stC8 2).1.session_queue =
      stC8.session_queue.filter (fun e => ! decide (e.sid = 2)) ∧
     (close_session stC8 2).1.queue_file =
      some (serializeQueue
        (stC8.session_queue.filter (fun e => ! decide (e.sid = 2))))) :=
  ⟨by decide, by decide,
   close_session_removes_exactly stC8 2 (by decide) (by decide)⟩

end SAM2Server
